import Mathlib

/-!
Shallow embedding of the RISC-V matrix-multiplication benchmark
(`src/matrix_naive.c`, `src/matrix_tiled.c`, `src/matrix_vector.c`,
`src/utils.c`).

Matrices are dense row-major buffers of doubles; the embedding uses `ℚ`
for the element type so that arithmetic is exact, and a flat `List ℚ` for
the backing buffer.  `MATRIX_GET`/`MATRIX_SET` become `matrixGet` /
`matrixSet` on the linear index `i * cols + j`; a read outside the buffer
returns the default `0` (in C this is an out-of-bounds access).

`size_t` arithmetic is modelled exactly: subtractions and additions that
the C code performs on `size_t` values are taken modulo `2 ^ 64`
(`SIZE_T_MOD`).  Loops whose C counterparts can fail to terminate (the
unrolled k-loop of `matrix_mult_tiled` and the lane-chunked j-loop of
`matrix_mult_vector`, both of which compute their bound with a `size_t`
subtraction that can wrap) are given an explicit fuel parameter and
return `none` when the fuel is exhausted; a result `none` for every fuel
shows the C loop never exits.
-/

namespace MatrixBench

/-- `typedef struct { double *data; size_t rows; size_t cols; } Matrix;`
(row-major flat buffer, element (i,j) at linear offset `i*cols + j`). -/
structure Matrix where
  rows : Nat
  cols : Nat
  data : List ℚ
deriving DecidableEq, Repr

/-- The modulus of `size_t` arithmetic (64-bit). -/
def SIZE_T_MOD : Nat := 2 ^ 64

/-- `MATRIX_GET(mat, i, j)`: `mat->data[i * mat->cols + j]`. -/
def matrixGet (M : Matrix) (i j : Nat) : ℚ :=
  M.data.getD (i * M.cols + j) 0

/-- `MATRIX_SET(mat, i, j, val)`: `mat->data[i * mat->cols + j] = val`. -/
def matrixSet (M : Matrix) (i j : Nat) (v : ℚ) : Matrix :=
  ⟨M.rows, M.cols, M.data.set (i * M.cols + j) v⟩

/-- `matrix_init_zero`: `memset(mat->data, 0, rows * cols * sizeof(double))`. -/
def matrix_init_zero (M : Matrix) : Matrix :=
  ⟨M.rows, M.cols, List.replicate (M.rows * M.cols) 0⟩

/-- `matrix_create(rows, cols)` from `matrix_naive.c`.  The outcomes of the
two C allocations (`malloc` for the struct, `aligned_malloc` for the data
buffer) and the uninitialized contents of the fresh buffer are environment
inputs, passed explicitly.  Note the C code performs no check on
`rows`/`cols` themselves. -/
def matrix_create (struct_alloc_ok data_alloc_ok : Bool) (rows cols : Nat)
    (mem : List ℚ) : Option Matrix :=
  if struct_alloc_ok = false then none
  else if data_alloc_ok = false then none
  else some ⟨rows, cols, mem⟩

/-- Inner accumulation of `matrix_mult_naive`:
`for (k = 0; k < m; k++) sum += MATRIX_GET(A,i,k) * MATRIX_GET(B,k,j);`
starting from `sum = 0.0`. -/
def naiveInnerK (A B : Matrix) (m i j : Nat) : ℚ :=
  (List.range m).foldl (fun sum k => sum + matrixGet A i k * matrixGet B k j) 0

/-- One iteration of the outer `i` loop of `matrix_mult_naive`: the `j`
loop over `[0, p)` storing the accumulated sum into `C[i][j]`. -/
def naiveRowStep (A B : Matrix) (C1 : Matrix) (i : Nat) : Matrix :=
  (List.range B.cols).foldl (fun C2 j =>
    matrixSet C2 i j (naiveInnerK A B A.cols i j)) C1

/-- `matrix_mult_naive(A, B, C)`: dimension check, then the i-j-k triple
loop storing each accumulated sum into `C[i][j]`.  On a dimension
mismatch the function returns with `C` untouched. -/
def matrix_mult_naive (A B C : Matrix) : Matrix :=
  if A.cols = B.rows ∧ A.rows = C.rows ∧ B.cols = C.cols then
    (List.range A.rows).foldl (naiveRowStep A B) C
  else C

/-- `matrix_verify(A, B, tolerance)`: `0` on a null handle, `0` on a
dimension mismatch, otherwise scans the flat buffer of `rows*cols`
elements and returns `0` as soon as `fabs(A->data[i] - B->data[i])`
exceeds the tolerance, else `1`. -/
def matrix_verify : Option Matrix → Option Matrix → ℚ → Bool
  | some A, some B, tol =>
    if A.rows = B.rows ∧ A.cols = B.cols then
      (List.range (A.rows * A.cols)).all
        (fun i => decide (|A.data.getD i 0 - B.data.getD i 0| ≤ tol))
    else false
  | _, _, _ => false

/-- The linear congruential step of `random_double` in `utils.c`:
`random_seed = random_seed * 1103515245 + 12345;` on `unsigned int`. -/
def lcg_next (seed : Nat) : Nat :=
  (seed * 1103515245 + 12345) % 4294967296

/-- `random_double(min, max)` from `utils.c`, with the generator state
passed explicitly: advances the seed, then returns
`min + r * (max - min)` where `r = (seed & 0x7FFFFFFF) / 0x7FFFFFFF`. -/
def random_double (seed : Nat) (minV maxV : ℚ) : Nat × ℚ :=
  let s := lcg_next seed
  (s, minV + ((s % 2147483648 : Nat) : ℚ) / (2147483647 : ℚ) * (maxV - minV))

/-- The element stream written by `matrix_init_random`: `count` successive
draws of `random_double`, threading the generator state; returns the
values in the order written and the final state. -/
def randomFill (seed : Nat) (minV maxV : ℚ) : Nat → List ℚ × Nat
  | 0 => ([], seed)
  | n + 1 =>
    let p := random_double seed minV maxV
    let rest := randomFill p.1 minV maxV n
    (p.2 :: rest.1, rest.2)

/-- `matrix_init_random(mat, min, max)`: overwrites every element, in
row-major linear order (`for (i = 0; i < rows*cols; i++)`), with a draw
from `random_double`; the generator state is threaded explicitly. -/
def matrix_init_random (M : Matrix) (seed : Nat) (minV maxV : ℚ) :
    Matrix × Nat :=
  (⟨M.rows, M.cols, (randomFill seed minV maxV (M.rows * M.cols)).1⟩,
   (randomFill seed minV maxV (M.rows * M.cols)).2)

/-- The trial-square-root loop of `calculate_optimal_tile_size`:
`tile_size = 1; while (tile_size * tile_size <= elements_per_tile) tile_size++;`
The fuel is instantiated to `budget + 2`, an upper bound on the number of
iterations the C loop performs (the loop exits as soon as `t * t > budget`,
and `t` is incremented at most `budget + 1` times). -/
def sqrtTrialLoop : Nat → Nat → Nat → Nat
  | 0, _, t => t
  | f + 1, budget, t => if t * t ≤ budget then sqrtTrialLoop f budget (t + 1) else t

/-- The power-of-two loop of `calculate_optimal_tile_size`:
`power_of_2 = 1; while (power_of_2 <= tile_size) power_of_2 <<= 1;`
The fuel is instantiated to `limit + 2`, an upper bound on the iteration
count (the trial value doubles from 1 every step). -/
def pow2Loop : Nat → Nat → Nat → Nat
  | 0, _, p => p
  | f + 1, limit, p => if p ≤ limit then pow2Loop f limit (p * 2) else p

/-- `calculate_optimal_tile_size(cache_size_bytes, element_size)` from
`matrix_tiled.c`: divide the capacity by 4, divide by `3 * element_size`,
take the incremental trial square root and step back one, clamp to
`[8, 256]`, then round down to the nearest power of two. -/
def calculate_optimal_tile_size (cache_size_bytes element_size : Nat) : Nat :=
  let usable_cache := cache_size_bytes / 4
  let elements_per_tile := usable_cache / (3 * element_size)
  let tile_size := sqrtTrialLoop (elements_per_tile + 2) elements_per_tile 1 - 1
  let t1 := if tile_size < 8 then 8 else tile_size
  let t2 := if t1 > 256 then 256 else t1
  pow2Loop (t2 + 2) t2 1 / 2

/-- The tiled kernel's unrolled inner k-loop
(`for (k = kk; k < k_end - 3; k += 4) { four multiply-adds }`):
`k` is a `size_t`, so the step wraps modulo `2^64` and the bound
`k_end - 3` is the `size_t` difference `(k_end + 2^64 - 3) % 2^64`.
Returns the exit state `(k, sum)`, or `none` when the fuel runs out
before the loop condition fails. -/
def tiledKLoop (A B : Matrix) (i j k_end : Nat) :
    Nat → Nat → ℚ → Option (Nat × ℚ)
  | 0, _, _ => none
  | fuel + 1, k, sum =>
    if k < (k_end + SIZE_T_MOD - 3) % SIZE_T_MOD then
      tiledKLoop A B i j k_end fuel ((k + 4) % SIZE_T_MOD)
        (sum + matrixGet A i k * matrixGet B k j
             + matrixGet A i ((k + 1) % SIZE_T_MOD) * matrixGet B ((k + 1) % SIZE_T_MOD) j
             + matrixGet A i ((k + 2) % SIZE_T_MOD) * matrixGet B ((k + 2) % SIZE_T_MOD) j
             + matrixGet A i ((k + 3) % SIZE_T_MOD) * matrixGet B ((k + 3) % SIZE_T_MOD) j)
    else some (k, sum)

/-- The block-start indices of a C loop `for (x = 0; x < total; x += tile)`
with `tile ≥ 1`: `0, tile, 2*tile, ...` while below `total`. -/
def blockStarts (total tile : Nat) : List Nat :=
  (List.range ((total + tile - 1) / tile)).map (fun b => b * tile)

/-- One tile of `matrix_mult_tiled`: clamp the tile boundaries to the
matrix extents, then for each `(i, j)` of the tile load `C[i][j]`, run the
unrolled k-loop followed by the scalar cleanup loop
(`for (; k < k_end; k++)`), and store the sum back. -/
def tiledBlock (A B : Matrix) (tile n m p fuel : Nat) (C : Matrix)
    (ii jj kk : Nat) : Option Matrix :=
  let i_end := if ii + tile < n then ii + tile else n
  let j_end := if jj + tile < p then jj + tile else p
  let k_end := if kk + tile < m then kk + tile else m
  List.foldlM (fun C1 i =>
    List.foldlM (fun C2 j =>
      (tiledKLoop A B i j k_end fuel kk (matrixGet C2 i j)).map (fun ks =>
        matrixSet C2 i j
          ((List.range' ks.1 (k_end - ks.1)).foldl
            (fun s k => s + matrixGet A i k * matrixGet B k j) ks.2)))
      C1 (List.range' jj (j_end - jj)))
    C (List.range' ii (i_end - ii))

/-- The three block loops of `matrix_mult_tiled` (`ii`, `jj`, `kk`, each
stepping by `tile_size`), run on the already-zeroed result matrix. -/
def tiledLoops (A B : Matrix) (tile fuel : Nat) (C0 : Matrix) : Option Matrix :=
  List.foldlM (fun Ci ii =>
    List.foldlM (fun Cj jj =>
      List.foldlM (fun Ck kk =>
        tiledBlock A B tile A.rows A.cols B.cols fuel Ck ii jj kk)
        Cj (blockStarts A.cols tile))
      Ci (blockStarts B.cols tile))
    C0 (blockStarts A.rows tile)

/-- `matrix_mult_tiled(A, B, C, tile_size)`: dimension check (mismatch
returns with `C` untouched), `matrix_init_zero(C)`, then the tiled loops.
A `tile_size` of `0` makes the C block loops step in place forever
whenever `n > 0`, hence `none`. -/
def matrix_mult_tiled_fuel (fuel : Nat) (A B C : Matrix) (tile : Nat) :
    Option Matrix :=
  if A.cols = B.rows ∧ A.rows = C.rows ∧ B.cols = C.cols then
    if tile = 0 ∧ A.rows ≠ 0 then none
    else tiledLoops A B tile fuel (matrix_init_zero C)
  else some C

/-- One simulated vector chunk of `matrix_mult_vector`
(`for (vj = 0; vj < VECTOR_LENGTH; vj++) C[i][j+vj] += a_ik * B[k][j+vj]`
with `VECTOR_LENGTH = 8`). -/
def vectorChunk (aik : ℚ) (B : Matrix) (k i j : Nat) (C : Matrix) : Matrix :=
  (List.range 8).foldl (fun Cv vj =>
    matrixSet Cv i (j + vj)
      (matrixGet Cv i (j + vj) + aik * matrixGet B k (j + vj))) C

/-- The lane-chunked j-loop of `matrix_mult_vector`
(`for (j = 0; j <= p - VECTOR_LENGTH; j += VECTOR_LENGTH)`): the bound
`p - VECTOR_LENGTH` is a `size_t` difference, modelled as
`(p + 2^64 - 8) % 2^64`, and the step wraps modulo `2^64`.  Returns the
exit state `(j, C)`, or `none` when the fuel runs out before the loop
condition fails. -/
def vectorJLoop (aik : ℚ) (B : Matrix) (k i p : Nat) :
    Nat → Nat → Matrix → Option (Nat × Matrix)
  | 0, _, _ => none
  | fuel + 1, j, C =>
    if j ≤ (p + SIZE_T_MOD - 8) % SIZE_T_MOD then
      vectorJLoop aik B k i p fuel ((j + 8) % SIZE_T_MOD) (vectorChunk aik B k i j C)
    else some (j, C)

/-- The i-k-j loops of `matrix_mult_vector`, run on the already-zeroed
result matrix: for each `(i, k)` load `a_ik`, run the lane-chunked j-loop
then the scalar cleanup loop (`for (; j < p; j++)`). -/
def vectorLoops (A B : Matrix) (fuel : Nat) (C0 : Matrix) : Option Matrix :=
  List.foldlM (fun C1 i =>
    List.foldlM (fun C2 k =>
      (vectorJLoop (matrixGet A i k) B k i B.cols fuel 0 C2).map (fun jC =>
        (List.range' jC.1 (B.cols - jC.1)).foldl (fun C3 j =>
          matrixSet C3 i j
            (matrixGet C3 i j + matrixGet A i k * matrixGet B k j)) jC.2))
      C1 (List.range A.cols))
    C0 (List.range A.rows)

/-- `matrix_mult_vector(A, B, C)`: dimension check (mismatch returns with
`C` untouched), `matrix_init_zero(C)`, then the i-k-j loops with the
lane-chunked inner loop. -/
def matrix_mult_vector_fuel (fuel : Nat) (A B C : Matrix) : Option Matrix :=
  if A.cols = B.rows ∧ A.rows = C.rows ∧ B.cols = C.cols then
    vectorLoops A B fuel (matrix_init_zero C)
  else some C

/-! ### Basic lemmas about the embedding -/

lemma getD_set_self {l : List ℚ} {n : Nat} {v : ℚ} (h : n < l.length) :
    (l.set n v).getD n 0 = v := by
  rw [List.getD_eq_getElem?_getD, List.getElem?_set_self]
  · simp
  · omega

lemma getD_set_ne {l : List ℚ} {n m : Nat} {v : ℚ} (h : n ≠ m) :
    (l.set n v).getD m 0 = l.getD m 0 := by
  rw [List.getD_eq_getElem?_getD, List.getElem?_set_ne h,
    ← List.getD_eq_getElem?_getD]

lemma matrixSet_rows (M : Matrix) (i j : Nat) (v : ℚ) :
    (matrixSet M i j v).rows = M.rows := rfl

lemma matrixSet_cols (M : Matrix) (i j : Nat) (v : ℚ) :
    (matrixSet M i j v).cols = M.cols := rfl

lemma matrixSet_length (M : Matrix) (i j : Nat) (v : ℚ) :
    (matrixSet M i j v).data.length = M.data.length := by
  simp [matrixSet]

/-- The linear offset of an in-extent element lies inside a
`rows × cols` buffer. -/
lemma linearIdx_lt {nr nc i j : Nat} (hi : i < nr) (hj : j < nc) :
    i * nc + j < nr * nc := by
  have hstep : (i + 1) * nc ≤ nr * nc := Nat.mul_le_mul_right nc hi
  have hrow : i * nc + j < (i + 1) * nc := by
    rw [Nat.succ_mul]
    omega
  omega

/-- Distinct in-extent coordinates have distinct linear offsets. -/
lemma linearIdx_inj {c i j i2 j2 : Nat} (hj : j < c) (hj2 : j2 < c)
    (h : i * c + j = i2 * c + j2) : i = i2 ∧ j = j2 := by
  rcases Nat.lt_trichotomy i i2 with hlt | heq | hgt
  · exfalso
    have h1 : (i + 1) * c ≤ i2 * c := Nat.mul_le_mul_right c hlt
    have : i * c + j < i2 * c + j2 := by
      calc i * c + j < i * c + c := by omega
        _ = (i + 1) * c := by ring
        _ ≤ i2 * c := h1
        _ ≤ i2 * c + j2 := by omega
    omega
  · refine ⟨heq, ?_⟩
    subst heq
    omega
  · exfalso
    have h1 : (i2 + 1) * c ≤ i * c := Nat.mul_le_mul_right c hgt
    have : i2 * c + j2 < i * c + j := by
      calc i2 * c + j2 < i2 * c + c := by omega
        _ = (i2 + 1) * c := by ring
        _ ≤ i * c := h1
        _ ≤ i * c + j := by omega
    omega

lemma matrixGet_set_self (M : Matrix) (i j : Nat) (v : ℚ)
    (h : i * M.cols + j < M.data.length) :
    matrixGet (matrixSet M i j v) i j = v := by
  simp only [matrixGet, matrixSet]
  exact getD_set_self h

lemma matrixGet_set_ne (M : Matrix) {i j i2 j2 : Nat} (v : ℚ)
    (hj : j < M.cols) (hj2 : j2 < M.cols) (hne : ¬(i = i2 ∧ j = j2)) :
    matrixGet (matrixSet M i j v) i2 j2 = matrixGet M i2 j2 := by
  simp only [matrixGet, matrixSet]
  exact getD_set_ne (fun hidx => hne (linearIdx_inj hj hj2 hidx))

lemma foldl_range_add_eq_sum (g : Nat → ℚ) (m : Nat) :
    (List.range m).foldl (fun s k => s + g k) 0
      = ∑ k ∈ Finset.range m, g k := by
  induction m with
  | zero => simp
  | succ n ih => rw [List.range_succ, List.foldl_append, ih, Finset.sum_range_succ]; simp

/-! ### Non-termination of the underflowing loops

In `matrix_mult_tiled` the unrolled-loop bound `k_end - 3` is computed in
`size_t`; whenever `k_end < 3` it wraps to at least `2^64 - 2`, and since
`k` only ever takes values `≡ kk (mod 4)`, the loop condition never
becomes false: the loop runs (and reads out of bounds) forever.
Similarly for `matrix_mult_vector`: the chunk-loop bound `p - 8` wraps
whenever `p < 8`, while `j` only takes multiples of 8 below `2^64`. -/

lemma SIZE_T_MOD_eq : SIZE_T_MOD = 18446744073709551616 := rfl

lemma tiledKLoop_underflow_none (A B : Matrix) (i j k_end : Nat)
    (hke : k_end = 1 ∨ k_end = 2) :
    ∀ fuel k sum, k < SIZE_T_MOD → k % 4 ≤ 1 →
      tiledKLoop A B i j k_end fuel k sum = none := by
  intro fuel
  induction fuel with
  | zero => intro k sum _ _; rfl
  | succ f ih =>
    intro k sum hkW hk4
    rw [SIZE_T_MOD_eq] at hkW
    have hcond : k < (k_end + SIZE_T_MOD - 3) % SIZE_T_MOD := by
      rw [SIZE_T_MOD_eq]
      rcases hke with h | h <;> subst h <;> omega
    simp only [tiledKLoop, if_pos hcond]
    refine ih _ _ ?_ ?_ <;> rw [SIZE_T_MOD_eq] <;> omega

lemma vectorJLoop_underflow_none (aik : ℚ) (B : Matrix) (k i p : Nat)
    (hp : p < 8) :
    ∀ fuel j C, j < SIZE_T_MOD → j % 8 = 0 →
      vectorJLoop aik B k i p fuel j C = none := by
  intro fuel
  induction fuel with
  | zero => intro j C _ _; rfl
  | succ f ih =>
    intro j C hjW hj8
    rw [SIZE_T_MOD_eq] at hjW
    have hcond : j ≤ (p + SIZE_T_MOD - 8) % SIZE_T_MOD := by
      rw [SIZE_T_MOD_eq]
      omega
    simp only [vectorJLoop, if_pos hcond]
    refine ih _ _ ?_ ?_ <;> rw [SIZE_T_MOD_eq] <;> omega

/-! ### The write pattern of the naive kernel

A row write `J.foldl (fun C2 j => matrixSet C2 i j (f j)) C` stores `f j`
at every column `j ∈ J` of row `i` and touches nothing else; the outer
fold over rows then assembles the full product. -/

lemma foldl_setRow_dims (i : Nat) (f : Nat → ℚ) :
    ∀ (J : List Nat) (C : Matrix),
      (J.foldl (fun C2 j => matrixSet C2 i j (f j)) C).rows = C.rows ∧
      (J.foldl (fun C2 j => matrixSet C2 i j (f j)) C).cols = C.cols ∧
      (J.foldl (fun C2 j => matrixSet C2 i j (f j)) C).data.length = C.data.length := by
  intro J
  induction J with
  | nil => intro C; exact ⟨rfl, rfl, rfl⟩
  | cons a J ih =>
    intro C
    simp only [List.foldl_cons]
    exact ⟨(ih _).1, (ih _).2.1, by rw [(ih _).2.2, matrixSet_length]⟩

lemma foldl_setRow_get_other (i : Nat) (f : Nat → ℚ) :
    ∀ (J : List Nat) (C : Matrix) (i2 j2 : Nat),
      (∀ x ∈ J, x < C.cols) → j2 < C.cols → (i2 ≠ i ∨ j2 ∉ J) →
      matrixGet (J.foldl (fun C2 j => matrixSet C2 i j (f j)) C) i2 j2
        = matrixGet C i2 j2 := by
  intro J
  induction J with
  | nil => intro C i2 j2 _ _ _; rfl
  | cons a J ih =>
    intro C i2 j2 hJ hj2 hcase
    simp only [List.foldl_cons]
    rw [ih (matrixSet C i a (f a)) i2 j2
      (fun x hx => hJ x (List.mem_cons_of_mem a hx))
      hj2
      (by rcases hcase with h | h
          · exact Or.inl h
          · exact Or.inr (fun hmem => h (List.mem_cons_of_mem a hmem)))]
    apply matrixGet_set_ne C (f a) (hJ a (List.mem_cons_self _ _)) hj2
    rintro ⟨h1, h2⟩
    rcases hcase with h | h
    · exact h h1.symm
    · exact h (h2 ▸ List.mem_cons_self _ _)

lemma foldl_setRow_get_self (i : Nat) (f : Nat → ℚ) :
    ∀ (J : List Nat) (C : Matrix) (j : Nat),
      (∀ x ∈ J, x < C.cols) → C.data.length = C.rows * C.cols →
      i < C.rows → j ∈ J →
      matrixGet (J.foldl (fun C2 j2 => matrixSet C2 i j2 (f j2)) C) i j
        = f j := by
  intro J
  induction J with
  | nil => intro C j _ _ _ h; cases h
  | cons a J ih =>
    intro C j hJ hlen hi hmem
    simp only [List.foldl_cons]
    by_cases hjJ : j ∈ J
    · exact ih (matrixSet C i a (f a)) j
        (fun x hx => hJ x (List.mem_cons_of_mem a hx))
        (by rw [matrixSet_length, hlen]; rfl) hi hjJ
    · have hja : j = a := by
        rcases List.mem_cons.1 hmem with h | h
        · exact h
        · exact absurd h hjJ
      subst hja
      rw [foldl_setRow_get_other i f J (matrixSet C i j (f j)) i j
        (fun x hx => hJ x (List.mem_cons_of_mem j hx))
        (hJ j (List.mem_cons_self _ _)) (Or.inr hjJ)]
      exact matrixGet_set_self C i j (f j)
        (by rw [hlen]; exact linearIdx_lt hi (hJ j (List.mem_cons_self _ _)))

lemma naiveRowStep_dims (A B : Matrix) (C : Matrix) (i : Nat) :
    (naiveRowStep A B C i).rows = C.rows ∧
    (naiveRowStep A B C i).cols = C.cols ∧
    (naiveRowStep A B C i).data.length = C.data.length :=
  foldl_setRow_dims i _ (List.range B.cols) C

lemma foldl_rows_get_other (A B : Matrix) :
    ∀ (I : List Nat) (C : Matrix) (i j : Nat),
      B.cols = C.cols → j < C.cols → i ∉ I →
      matrixGet (I.foldl (naiveRowStep A B) C) i j = matrixGet C i j := by
  intro I
  induction I with
  | nil => intro C i j _ _ _; rfl
  | cons a I ih =>
    intro C i j hbc hj hni
    simp only [List.foldl_cons]
    have hia : i ≠ a := fun h => hni (h ▸ List.mem_cons_self _ _)
    have hniI : i ∉ I := fun h => hni (List.mem_cons_of_mem a h)
    rw [ih (naiveRowStep A B C a) i j (hbc.trans (naiveRowStep_dims A B C a).2.1.symm)
      ((naiveRowStep_dims A B C a).2.1.symm ▸ hj) hniI]
    exact foldl_setRow_get_other a _ (List.range B.cols) C i j
      (fun x hx => hbc ▸ List.mem_range.1 hx) hj (Or.inl hia)

lemma foldl_rows_get_self (A B : Matrix) :
    ∀ (I : List Nat) (C : Matrix) (i j : Nat),
      B.cols = C.cols → C.data.length = C.rows * C.cols →
      i < C.rows → j < B.cols → i ∈ I →
      matrixGet (I.foldl (naiveRowStep A B) C) i j
        = naiveInnerK A B A.cols i j := by
  intro I
  induction I with
  | nil => intro C i j _ _ _ _ h; cases h
  | cons a I ih =>
    intro C i j hbc hlen hi hj hmem
    simp only [List.foldl_cons]
    by_cases hiI : i ∈ I
    · exact ih (naiveRowStep A B C a) i j
        (hbc.trans (naiveRowStep_dims A B C a).2.1.symm)
        (by rw [(naiveRowStep_dims A B C a).2.2, hlen,
              (naiveRowStep_dims A B C a).1, (naiveRowStep_dims A B C a).2.1])
        ((naiveRowStep_dims A B C a).1.symm ▸ hi) hj hiI
    · have hia : i = a := by
        rcases List.mem_cons.1 hmem with h | h
        · exact h
        · exact absurd h hiI
      subst hia
      rw [foldl_rows_get_other A B I (naiveRowStep A B C i) i j
        (hbc.trans (naiveRowStep_dims A B C i).2.1.symm)
        ((naiveRowStep_dims A B C i).2.1.symm ▸ (hbc ▸ hj)) hiI]
      exact foldl_setRow_get_self i _ (List.range B.cols) C j
        (fun x hx => hbc ▸ List.mem_range.1 hx) hlen hi (List.mem_range.2 hj)

lemma foldl_rows_dims (A B : Matrix) :
    ∀ (I : List Nat) (C : Matrix),
      (I.foldl (naiveRowStep A B) C).rows = C.rows ∧
      (I.foldl (naiveRowStep A B) C).cols = C.cols ∧
      (I.foldl (naiveRowStep A B) C).data.length = C.data.length := by
  intro I
  induction I with
  | nil => intro C; exact ⟨rfl, rfl, rfl⟩
  | cons a I ih =>
    intro C
    simp only [List.foldl_cons]
    exact ⟨(ih _).1.trans (naiveRowStep_dims A B C a).1,
      (ih _).2.1.trans (naiveRowStep_dims A B C a).2.1,
      (ih _).2.2.trans (naiveRowStep_dims A B C a).2.2⟩

lemma naiveInnerK_eq_sum (A B : Matrix) (m i j : Nat) :
    naiveInnerK A B m i j
      = ∑ k ∈ Finset.range m, matrixGet A i k * matrixGet B k j :=
  foldl_range_add_eq_sum _ m

lemma matrix_init_zero_congr {C1 C2 : Matrix} (hr : C1.rows = C2.rows)
    (hc : C1.cols = C2.cols) : matrix_init_zero C1 = matrix_init_zero C2 := by
  simp [matrix_init_zero, hr, hc]

/-! ### The claims -/

/-- C2.  The naive kernel, on dimension-compatible inputs, sets every
result element `C[i][j]` (for `i` below the row extent and `j` below the
column extent) to `∑ k < m, A[i][k] * B[k][j]`, preserving the result
matrix's extents, and the value does not depend on `C`'s contents before
the call (the initial data only has to have the invariant length
`rows * cols`). -/
theorem c2_naive_elementwise (A B C : Matrix)
    (hab : A.cols = B.rows) (hra : A.rows = C.rows) (hbc : B.cols = C.cols)
    (hlen : C.data.length = C.rows * C.cols)
    (i j : Nat) (hi : i < A.rows) (hj : j < B.cols) :
    (matrix_mult_naive A B C).rows = C.rows ∧
    (matrix_mult_naive A B C).cols = C.cols ∧
    matrixGet (matrix_mult_naive A B C) i j
      = ∑ k ∈ Finset.range A.cols, matrixGet A i k * matrixGet B k j := by
  rw [matrix_mult_naive, if_pos ⟨hab, hra, hbc⟩]
  refine ⟨(foldl_rows_dims A B _ C).1, (foldl_rows_dims A B _ C).2.1, ?_⟩
  rw [foldl_rows_get_self A B (List.range A.rows) C i j hbc hlen
    (hra ▸ hi) hj (List.mem_range.2 hi)]
  exact naiveInnerK_eq_sum A B A.cols i j

/-- Witness for C2 at a concrete input whose result matrix starts with
non-zero contents. -/
theorem c2_naive_elementwise_witness :
    (matrix_mult_naive ⟨2, 2, [1, 2, 3, 4]⟩ ⟨2, 2, [5, 6, 7, 8]⟩
        ⟨2, 2, [9, 9, 9, 9]⟩).rows = (⟨2, 2, [9, 9, 9, 9]⟩ : Matrix).rows ∧
    (matrix_mult_naive ⟨2, 2, [1, 2, 3, 4]⟩ ⟨2, 2, [5, 6, 7, 8]⟩
        ⟨2, 2, [9, 9, 9, 9]⟩).cols = (⟨2, 2, [9, 9, 9, 9]⟩ : Matrix).cols ∧
    matrixGet (matrix_mult_naive ⟨2, 2, [1, 2, 3, 4]⟩ ⟨2, 2, [5, 6, 7, 8]⟩
        ⟨2, 2, [9, 9, 9, 9]⟩) 0 1
      = ∑ k ∈ Finset.range 2,
          matrixGet ⟨2, 2, [1, 2, 3, 4]⟩ 0 k * matrixGet ⟨2, 2, [5, 6, 7, 8]⟩ k 1 :=
  c2_naive_elementwise ⟨2, 2, [1, 2, 3, 4]⟩ ⟨2, 2, [5, 6, 7, 8]⟩
    ⟨2, 2, [9, 9, 9, 9]⟩ rfl rfl rfl (by decide) 0 1 (by decide) (by decide)

/-- C5.  All three kernels return without modifying the result matrix
when the dimension-compatibility invariant is violated. -/
theorem c5_dimension_mismatch_noop (A B C : Matrix)
    (h : ¬(A.cols = B.rows ∧ A.rows = C.rows ∧ B.cols = C.cols)) :
    matrix_mult_naive A B C = C ∧
    (∀ fuel tile, matrix_mult_tiled_fuel fuel A B C tile = some C) ∧
    (∀ fuel, matrix_mult_vector_fuel fuel A B C = some C) := by
  refine ⟨?_, fun fuel tile => ?_, fun fuel => ?_⟩
  · rw [matrix_mult_naive, if_neg h]
  · rw [matrix_mult_tiled_fuel, if_neg h]
  · rw [matrix_mult_vector_fuel, if_neg h]

/-- Witness for C5: A is 3×4, B is 5×6, C is 3×6 and pre-zeroed. -/
theorem c5_dimension_mismatch_noop_witness :
    matrix_mult_naive ⟨3, 4, List.replicate 12 1⟩ ⟨5, 6, List.replicate 30 1⟩
        ⟨3, 6, List.replicate 18 0⟩ = ⟨3, 6, List.replicate 18 0⟩ ∧
    (∀ fuel tile, matrix_mult_tiled_fuel fuel ⟨3, 4, List.replicate 12 1⟩
        ⟨5, 6, List.replicate 30 1⟩ ⟨3, 6, List.replicate 18 0⟩ tile
      = some ⟨3, 6, List.replicate 18 0⟩) ∧
    (∀ fuel, matrix_mult_vector_fuel fuel ⟨3, 4, List.replicate 12 1⟩
        ⟨5, 6, List.replicate 30 1⟩ ⟨3, 6, List.replicate 18 0⟩
      = some ⟨3, 6, List.replicate 18 0⟩) :=
  c5_dimension_mismatch_noop _ _ _ (by decide)

/-- C6.  `matrix_init_random` is deterministic: two runs from the same
seed on matrices of the same dimensions (whatever their prior contents)
produce identical matrices and identical final generator states, each
element drawn in row-major linear order from the linear congruential
generator. -/
theorem c6_init_random_deterministic (M1 M2 : Matrix) (seed : Nat)
    (minV maxV : ℚ) (hr : M1.rows = M2.rows) (hc : M1.cols = M2.cols) :
    matrix_init_random M1 seed minV maxV = matrix_init_random M2 seed minV maxV := by
  simp [matrix_init_random, hr, hc]

/-- Witness for C6: two 64×64 matrices with different prior contents,
seeded with 42, as in the spec's concrete scenario. -/
theorem c6_init_random_deterministic_witness :
    matrix_init_random ⟨64, 64, List.replicate 4096 0⟩ 42 (-1) 1
      = matrix_init_random ⟨64, 64, List.replicate 4096 1⟩ 42 (-1) 1 :=
  c6_init_random_deterministic _ _ 42 (-1) 1 rfl rfl

/-- C7.  `matrix_verify` returns false on a null handle and on a
dimension mismatch; on matching dimensions it returns true exactly when
every element pair differs by at most the tolerance; and
`verify(M, M, 0)` is true. -/
theorem c7_verify_contract (A B M : Matrix) (tol : ℚ) :
    matrix_verify none (some B) tol = false ∧
    matrix_verify (some A) none tol = false ∧
    (¬(A.rows = B.rows ∧ A.cols = B.cols) →
      matrix_verify (some A) (some B) tol = false) ∧
    (A.rows = B.rows → A.cols = B.cols →
      (matrix_verify (some A) (some B) tol = true ↔
        ∀ i < A.rows * A.cols, |A.data.getD i 0 - B.data.getD i 0| ≤ tol)) ∧
    matrix_verify (some M) (some M) 0 = true := by
  refine ⟨rfl, rfl, fun h => ?_, fun h1 h2 => ?_, ?_⟩
  · simp only [matrix_verify, if_neg h]
  · simp only [matrix_verify,
      if_pos (show A.rows = B.rows ∧ A.cols = B.cols from ⟨h1, h2⟩),
      List.all_eq_true, List.mem_range, decide_eq_true_eq]
  · simp [matrix_verify]

/-- Witness for C7: a 1×1/2×1 mismatched pair fails, and a matrix always
verifies against itself at zero tolerance. -/
theorem c7_verify_contract_witness :
    matrix_verify (some ⟨1, 1, [0]⟩) (some ⟨2, 1, [0, 0]⟩) 0 = false ∧
    matrix_verify (some ⟨1, 1, [5]⟩) (some ⟨1, 1, [5]⟩) 0 = true :=
  ⟨(c7_verify_contract ⟨1, 1, [0]⟩ ⟨2, 1, [0, 0]⟩ ⟨1, 1, [5]⟩ 0).2.2.1 (by decide),
   (c7_verify_contract ⟨1, 1, [0]⟩ ⟨2, 1, [0, 0]⟩ ⟨1, 1, [5]⟩ 0).2.2.2.2⟩

/-- C8 counterexample.  `matrix_create` performs no zero-dimension
check: with both allocations succeeding (as glibc does even for a
zero-byte request), `matrix_create(0, 5)` returns a zero-sized matrix as
success, contradicting the claim that it fails whenever a dimension is
zero. -/
theorem c8_create_zero_dims_counterexample :
    matrix_create true true 0 5 [] = some ⟨0, 5, []⟩ := rfl

/-- C8 amended.  `matrix_create` fails exactly when one of its two
allocations fails; the dimensions are stored as requested and never
checked, so zero dimensions yield a zero-sized success whenever the
allocator succeeds. -/
theorem c8_create_characterization (s d : Bool) (rows cols : Nat) (mem : List ℚ) :
    matrix_create s d rows cols mem
      = if s = true ∧ d = true then some ⟨rows, cols, mem⟩ else none := by
  cases s <;> cases d <;> simp [matrix_create]

/-- C9.  For a 32768-byte cache and 8-byte elements the tile-size helper
returns 16: a power of two within the inclusive range [8, 256]. -/
theorem c9_tile_size_helper :
    calculate_optimal_tile_size 32768 8 = 16 ∧
    8 ≤ calculate_optimal_tile_size 32768 8 ∧
    calculate_optimal_tile_size 32768 8 ≤ 256 ∧
    ∃ k, calculate_optimal_tile_size 32768 8 = 2 ^ k :=
  ⟨by decide, by decide, by decide, ⟨4, by decide⟩⟩

/-- C10.  The tiled and vector-simulated kernels zero the result matrix
themselves after the dimension check, so on dimension-compatible inputs
two invocations that differ only in the result matrix's initial contents
produce identical outputs. -/
theorem c10_output_ignores_initial_C (A B C1 C2 : Matrix)
    (hab : A.cols = B.rows) (h1r : A.rows = C1.rows) (h1c : B.cols = C1.cols)
    (h2r : A.rows = C2.rows) (h2c : B.cols = C2.cols) :
    (∀ fuel tile, matrix_mult_tiled_fuel fuel A B C1 tile
        = matrix_mult_tiled_fuel fuel A B C2 tile) ∧
    (∀ fuel, matrix_mult_vector_fuel fuel A B C1
        = matrix_mult_vector_fuel fuel A B C2) := by
  have hz : matrix_init_zero C1 = matrix_init_zero C2 :=
    matrix_init_zero_congr (h1r.symm.trans h2r) (h1c.symm.trans h2c)
  constructor
  · intro fuel tile
    rw [matrix_mult_tiled_fuel, matrix_mult_tiled_fuel,
      if_pos (show A.cols = B.rows ∧ A.rows = C1.rows ∧ B.cols = C1.cols from
        ⟨hab, h1r, h1c⟩),
      if_pos (show A.cols = B.rows ∧ A.rows = C2.rows ∧ B.cols = C2.cols from
        ⟨hab, h2r, h2c⟩), hz]
  · intro fuel
    rw [matrix_mult_vector_fuel, matrix_mult_vector_fuel,
      if_pos (show A.cols = B.rows ∧ A.rows = C1.rows ∧ B.cols = C1.cols from
        ⟨hab, h1r, h1c⟩),
      if_pos (show A.cols = B.rows ∧ A.rows = C2.rows ∧ B.cols = C2.cols from
        ⟨hab, h2r, h2c⟩), hz]

/-- Witness for C10: same 2×2 inputs, one result matrix pre-zeroed, the
other full of sevens. -/
theorem c10_output_ignores_initial_C_witness :
    (∀ fuel tile, matrix_mult_tiled_fuel fuel ⟨2, 2, [1, 2, 3, 4]⟩
        ⟨2, 2, [5, 6, 7, 8]⟩ ⟨2, 2, [0, 0, 0, 0]⟩ tile
      = matrix_mult_tiled_fuel fuel ⟨2, 2, [1, 2, 3, 4]⟩
        ⟨2, 2, [5, 6, 7, 8]⟩ ⟨2, 2, [7, 7, 7, 7]⟩ tile) ∧
    (∀ fuel, matrix_mult_vector_fuel fuel ⟨2, 2, [1, 2, 3, 4]⟩
        ⟨2, 2, [5, 6, 7, 8]⟩ ⟨2, 2, [0, 0, 0, 0]⟩
      = matrix_mult_vector_fuel fuel ⟨2, 2, [1, 2, 3, 4]⟩
        ⟨2, 2, [5, 6, 7, 8]⟩ ⟨2, 2, [7, 7, 7, 7]⟩) :=
  c10_output_ignores_initial_C _ _ _ _ rfl rfl rfl rfl rfl

/-- C3.  At A = [[1,2],[3,4]], B = [[5,6],[7,8]] the tiled kernel does
not produce [[19,22],[43,50]] for tile sizes 1 and 2: every k-block has a
k-span of 1 or 2, so the unrolled loop bound `k_end - 3` wraps around in
`size_t` and the loop never terminates (no fuel suffices). -/
theorem c3_tiled_2x2_diverges :
    (∀ fuel, matrix_mult_tiled_fuel fuel ⟨2, 2, [1, 2, 3, 4]⟩ ⟨2, 2, [5, 6, 7, 8]⟩
        ⟨2, 2, [0, 0, 0, 0]⟩ 1 = none) ∧
    (∀ fuel, matrix_mult_tiled_fuel fuel ⟨2, 2, [1, 2, 3, 4]⟩ ⟨2, 2, [5, 6, 7, 8]⟩
        ⟨2, 2, [0, 0, 0, 0]⟩ 2 = none) := by
  have hk1 : ∀ (i j fuel : Nat) (s : ℚ),
      tiledKLoop ⟨2, 2, [1, 2, 3, 4]⟩ ⟨2, 2, [5, 6, 7, 8]⟩ i j 1 fuel 0 s = none :=
    fun i j fuel s => tiledKLoop_underflow_none _ _ i j 1 (Or.inl rfl) fuel 0 s
      (by rw [SIZE_T_MOD_eq]; omega) (by omega)
  have hk2 : ∀ (i j fuel : Nat) (s : ℚ),
      tiledKLoop ⟨2, 2, [1, 2, 3, 4]⟩ ⟨2, 2, [5, 6, 7, 8]⟩ i j 2 fuel 0 s = none :=
    fun i j fuel s => tiledKLoop_underflow_none _ _ i j 2 (Or.inr rfl) fuel 0 s
      (by rw [SIZE_T_MOD_eq]; omega) (by omega)
  have hr2 : List.range' 0 2 = [0, 1] := by decide
  constructor <;> intro fuel
  · simp [matrix_mult_tiled_fuel, tiledLoops, tiledBlock, blockStarts,
      List.range_succ, List.foldlM_cons, List.foldlM_nil, hk1]
  · simp [matrix_mult_tiled_fuel, tiledLoops, tiledBlock, blockStarts,
      List.range_succ, List.foldlM_cons, List.foldlM_nil, hk2, hr2]

/-- C4.  In the vector-simulated kernel the chunk-loop bound
`p - VECTOR_LENGTH` is computed in `size_t`; for any column count p < 8
it wraps around, so the j-loop never exits (and its body writes ever
further out of bounds): at p = 2 the kernel produces no result for any
fuel, instead of letting the scalar cleanup loop handle the 2 remainder
columns. -/
theorem c4_vector_small_p_diverges :
    ∀ fuel, matrix_mult_vector_fuel fuel ⟨2, 2, [1, 2, 3, 4]⟩
      ⟨2, 2, [5, 6, 7, 8]⟩ ⟨2, 2, [0, 0, 0, 0]⟩ = none := by
  have hv : ∀ (aik : ℚ) (k i fuel : Nat) (C : Matrix),
      vectorJLoop aik ⟨2, 2, [5, 6, 7, 8]⟩ k i 2 fuel 0 C = none :=
    fun aik k i fuel C => vectorJLoop_underflow_none _ _ k i 2 (by omega) fuel 0 C
      (by rw [SIZE_T_MOD_eq]; omega) (by omega)
  intro fuel
  simp [matrix_mult_vector_fuel, vectorLoops, List.range_succ,
    List.foldlM_cons, List.foldlM_nil, hv]

/-- C1.  The three kernels are not equivalent over the claimed parameter
range: at n = m = p = 2 (within [2,128]) with tile size 1 (within [1,n])
the naive kernel returns [[19,22],[43,50]] while the tiled kernel's
unrolled k-loop never terminates, so no tiled output exists at all, let
alone one element-wise equal to the naive output. -/
theorem c1_kernels_disagree_on_valid_input :
    matrix_mult_naive ⟨2, 2, [1, 2, 3, 4]⟩ ⟨2, 2, [5, 6, 7, 8]⟩ ⟨2, 2, [0, 0, 0, 0]⟩
      = ⟨2, 2, [19, 22, 43, 50]⟩ ∧
    ∀ fuel, matrix_mult_tiled_fuel fuel ⟨2, 2, [1, 2, 3, 4]⟩ ⟨2, 2, [5, 6, 7, 8]⟩
      ⟨2, 2, [0, 0, 0, 0]⟩ 1 = none := by
  have hk1 : ∀ (i j fuel : Nat) (s : ℚ),
      tiledKLoop ⟨2, 2, [1, 2, 3, 4]⟩ ⟨2, 2, [5, 6, 7, 8]⟩ i j 1 fuel 0 s = none :=
    fun i j fuel s => tiledKLoop_underflow_none _ _ i j 1 (Or.inl rfl) fuel 0 s
      (by rw [SIZE_T_MOD_eq]; omega) (by omega)
  constructor
  · norm_num [matrix_mult_naive, naiveRowStep, naiveInnerK, matrixGet,
      matrixSet, List.range_succ]
  · intro fuel
    simp [matrix_mult_tiled_fuel, tiledLoops, tiledBlock, blockStarts,
      List.range_succ, List.foldlM_cons, List.foldlM_nil, hk1]

end MatrixBench
